import Mathlib

/-!
# tsh: a tiny shell with job control

A shallow embedding of `src/tsh.c`.  The job list `struct job_t jobs[MAXJOBS]`
is a list of slots; every loop `for (i = 0; i < MAXJOBS; i++)` over the array
is a left-to-right scan of that list.  C `int` and `pid_t` values are `Int`.
A C string (`char *`, the characters before the terminating NUL) is a `String`.
A pointer `&jobs[i]` is the index `i`, and `NULL` is `none`.  The fixed sizes of the C
arrays are stated where they matter: a command line fits a job slot when `fitsLine` holds.

The shell process is a state `Shell` (the job list, the `verbose` flag and the trace of
the calls made so far: `printf`, `kill`, `sigprocmask`, `fork`, `addjob`, ...) together
with a control point `Ctl`.  What the environment decides (the return value of `fork`,
whether `pipe` and `open` succeed, what `waitpid` reports) is an argument of the function
that asks for it.  The control path runs in steps that end where it returns to `main`,
calls `waitfg`, exits or dereferences NULL; the signal handlers run between such steps.
-/

namespace Tsh

/-! ## Manifest constants -/

/-- The `MAXLINE` constant: max line size. -/
def MAXLINE : Nat := 1024
/-- The `MAXARGS` constant: max args on a command line. -/
def MAXARGS : Nat := 128
/-- The `MAXJOBS` constant: max jobs at any point in time. -/
def MAXJOBS : Nat := 16

/-- Job state `UNDEF`: undefined. -/
def UNDEF : Int := 0
/-- Job state `FG`: running in foreground. -/
def FG : Int := 1
/-- Job state `BG`: running in background. -/
def BG : Int := 2
/-- Job state `ST`: stopped. -/
def ST : Int := 3

/-! ## The job list -/

/-- The `struct job_t`: per-job data. -/
structure job_t where
  pid : Int
  jid : Int
  state : Int
  cmdline : String
  deriving DecidableEq, Repr

/-- The contents `clearjob` writes into a slot. -/
def clearjob : job_t := { pid := 0, jid := 0, state := UNDEF, cmdline := "" }

/-- The function `initjobs`: every one of the `MAXJOBS` slots is cleared. -/
def initjobs : List job_t := List.replicate MAXJOBS clearjob

/-- Index of the first slot satisfying `p`: the shape shared by the loops
`for (i = 0; i < MAXJOBS; i++) if (p(jobs[i])) ...return...`. -/
def firstSlot (p : job_t → Bool) : List job_t → Option Nat
  | [] => none
  | j :: js => if p j then some 0 else (firstSlot p js).map (fun i => i + 1)

/-- First loop body of `freejid`: `if (jobs[i].jid != 0) taken[jobs[i].jid] = 1;`.
An index outside `taken[MAXJOBS + 1]` is outside the array in C; the write is
then left out. -/
def markTaken (taken : List Bool) (job : job_t) : List Bool :=
  if job.jid ≠ 0 then
    if 0 ≤ job.jid ∧ job.jid ≤ (MAXJOBS : Int) then taken.set job.jid.toNat true else taken
  else taken

/-- Second loop of `freejid`, started at `i` with `n` iterations left:
`if (!taken[i]) return i;`, and `return 0` after the loop. -/
def freejidScan (taken : List Bool) : Nat → Nat → Int
  | _, 0 => 0
  | i, n + 1 => if !(taken.getD i false) then (i : Int) else freejidScan taken (i + 1) n

/-- The array `taken` after the first loop of `freejid`. -/
def takenOf (jobs : List job_t) : List Bool :=
  jobs.foldl markTaken (List.replicate (MAXJOBS + 1) false)

/-- The function `freejid`: returns smallest free job ID, 0 if there is none. -/
def freejid (jobs : List job_t) : Int :=
  freejidScan (takenOf jobs) 1 MAXJOBS

/-- Result of `addjob`: the return value, the job list afterwards and what was
printed. -/
structure AddResult where
  ret : Int
  jobs : List job_t
  out : List String
  deriving DecidableEq, Repr

/-- The command line fits the field `char cmdline[MAXLINE]` of a job with its terminating
NUL: `strlen(cmdline) < MAXLINE`, counted in bytes.  Every line the shell passes on is read
by `fgets(cmdline, MAXLINE, stdin)` into such an array, and fits. -/
def fitsLine (cmdline : String) : Prop := cmdline.utf8ByteSize < MAXLINE

instance (cmdline : String) : Decidable (fitsLine cmdline) := by
  unfold fitsLine; infer_instance

/-- The function `addjob`: add a job to the job list.  The `strcpy` into the slot is the
assignment of the command line; that is what the code does for a line with `fitsLine`.  A
longer line runs past the slot in C, which this function does not show. -/
def addjob (verbose : Bool) (jobs : List job_t) (pid state : Int) (cmdline : String) :
    AddResult :=
  if pid < 1 then { ret := 0, jobs := jobs, out := [] }
  else
    let free := freejid jobs
    if free = 0 then { ret := 0, jobs := jobs, out := ["Tried to create too many jobs\n"] }
    else
      match firstSlot (fun j => j.pid == 0) jobs with
      | some i =>
        { ret := 1
          jobs := jobs.set i { pid := pid, jid := free, state := state, cmdline := cmdline }
          out := if verbose then
              ["Added job [" ++ toString free ++ "] " ++ toString pid ++ " " ++ cmdline ++ "\n"]
            else [] }
      | none => { ret := 0, jobs := jobs, out := [] }

/-- The function `deletejob`: delete a job whose PID=pid from the job list.
Returns the return value and the job list afterwards. -/
def deletejob (jobs : List job_t) (pid : Int) : Int × List job_t :=
  if pid < 1 then (0, jobs)
  else
    match firstSlot (fun j => j.pid == pid) jobs with
    | some i => (1, jobs.set i clearjob)
    | none => (0, jobs)

/-- The function `getjobpid`: find a job (by PID) on the job list.  The pointer
`&jobs[i]` is the index `i`; `NULL` is `none`. -/
def getjobpid (jobs : List job_t) (pid : Int) : Option Nat :=
  if pid < 1 then none else firstSlot (fun j => j.pid == pid) jobs

/-- The function `getjobjid`: find a job (by JID) on the job list. -/
def getjobjid (jobs : List job_t) (jid : Int) : Option Nat :=
  if jid < 1 then none else firstSlot (fun j => j.jid == jid) jobs

/-- The function `pid2jid`: map process ID to job ID. -/
def pid2jid (jobs : List job_t) (pid : Int) : Int :=
  if pid < 1 then 0
  else
    match firstSlot (fun j => j.pid == pid) jobs with
    | some i => (jobs.getD i clearjob).jid
    | none => 0

/-- The record a job pointer points to. -/
def deref (jobs : List job_t) (p : Option Nat) : Option job_t :=
  p.bind (fun i => jobs[i]?)

/-! ## Well-formed job lists -/

/-- A slot is live when its pid is not 0. -/
def live (j : job_t) : Bool := j.pid != 0

/-- A slot is either empty (pid 0, jid 0) or live (pid >= 1, jid in 1..MAXJOBS). -/
def SlotOK (j : job_t) : Prop :=
  (j.pid = 0 ∧ j.jid = 0) ∨ (1 ≤ j.pid ∧ 1 ≤ j.jid ∧ j.jid ≤ (MAXJOBS : Int))

instance (j : job_t) : Decidable (SlotOK j) := by unfold SlotOK; infer_instance

/-- The jids of the live jobs, in slot order. -/
def liveJids (jobs : List job_t) : List Int := (jobs.filter live).map (fun j => j.jid)

/-- A job list of `MAXJOBS` slots, each empty or live, the live jids pairwise
distinct. -/
def WellFormed (jobs : List job_t) : Prop :=
  jobs.length = MAXJOBS ∧ (∀ j ∈ jobs, SlotOK j) ∧ (liveJids jobs).Nodup

instance (jobs : List job_t) : Decidable (WellFormed jobs) := by
  unfold WellFormed; infer_instance

/-- The ids 1..MAXJOBS. -/
def jidRange : List Int := (List.range' 1 MAXJOBS).map (fun (n : Nat) => (n : Int))

/-- A call of one of the two functions that change which jobs are in the list. -/
inductive JobOp where
  | add (pid state : Int) (cmdline : String)
  | del (pid : Int)
  deriving DecidableEq, Repr

/-- The command line of an `addjob` call fits a slot. -/
def JobOp.fits : JobOp → Prop
  | .add _ _ cmdline => fitsLine cmdline
  | .del _ => True

instance (op : JobOp) : Decidable op.fits := by
  cases op <;> (unfold JobOp.fits; infer_instance)

/-- The job list after one `addjob` or `deletejob` call. -/
def applyOp (verbose : Bool) (jobs : List job_t) : JobOp → List job_t
  | .add pid state cmdline => (addjob verbose jobs pid state cmdline).jobs
  | .del pid => (deletejob jobs pid).2

/-- The job list after `initjobs` followed by a sequence of calls. -/
def runOps (verbose : Bool) (ops : List JobOp) : List job_t :=
  ops.foldl (applyOp verbose) initjobs

/-- A sequence of calls, used to evaluate `runOps`. -/
def sampleOps : List JobOp :=
  [.add 100 BG "sleep 9 &\n", .add 101 FG "cat\n", .del 100, .add 102 BG "ls &\n",
   .add 103 ST "vi\n"]

/-- A job list with three live jobs, used to evaluate the functions. -/
def sampleJobs : List job_t :=
  [ { pid := 100, jid := 1, state := BG, cmdline := "sleep 9 &\n" },
    clearjob,
    { pid := 102, jid := 3, state := ST, cmdline := "cat\n" },
    { pid := 103, jid := 2, state := BG, cmdline := "sleep 5 &\n" } ] ++
  List.replicate 12 clearjob

/-- A job list with `MAXJOBS` live jobs, jids 1..MAXJOBS. -/
def fullJobs : List job_t :=
  (List.range MAXJOBS).map
    (fun (i : Nat) => { pid := 100 + (i : Int), jid := (i : Int) + 1, state := BG, cmdline := "sleep 9 &\n" })

/-! ## Signals, system calls and the shell state -/

/-- Signal number of `SIGINT` (from `signal.h`, Linux). -/
def SIGINT : Int := 2
/-- Signal number of `SIGCHLD` (from `signal.h`, Linux). -/
def SIGCHLD : Int := 17
/-- Signal number of `SIGCONT` (from `signal.h`, Linux). -/
def SIGCONT : Int := 18
/-- Signal number of `SIGTSTP` (from `signal.h`, Linux). -/
def SIGTSTP : Int := 20
/-- The `how` argument `SIG_BLOCK` of `sigprocmask`. -/
def SIG_BLOCK : Int := 0
/-- The `how` argument `SIG_UNBLOCK` of `sigprocmask`. -/
def SIG_UNBLOCK : Int := 1
/-- The `how` argument `SIG_SETMASK` of `sigprocmask`. -/
def SIG_SETMASK : Int := 2

/-- The calls the shell process makes that matter for job control, in the order it makes
them.  Descriptor bookkeeping (`close`, `dup2` in the parent) is not recorded. -/
inductive Event where
  | printf (text : String)
  | kill (target sig : Int)
  | sigprocmask (how : Int) (set : List Int)
  | fork (ret : Int)
  | pipe
  | setpgid (pid pgid : Int)
  | Signal (signum : Int)
  | addjob (pid state : Int)
  deriving DecidableEq, Repr

/-- The global state of the shell process: the job list, the `verbose` flag, and the
calls made so far. -/
structure Shell where
  jobs : List job_t
  verbose : Bool
  trace : List Event
  deriving DecidableEq, Repr

/-- Append calls to the trace. -/
def emit (s : Shell) (evs : List Event) : Shell := { s with trace := s.trace ++ evs }

/-- Everything printed so far. -/
def output (s : Shell) : List String :=
  s.trace.filterMap (fun e => match e with
    | .printf t => some t
    | _ => none)

/-- The signal mask after one call, given the mask before it. -/
def maskStep (mask : List Int) : Event → List Int
  | .sigprocmask how set =>
    if how = SIG_BLOCK then mask ++ set.filter (fun x => !mask.contains x)
    else if how = SIG_UNBLOCK then mask.filter (fun x => !set.contains x)
    else if how = SIG_SETMASK then set
    else mask
  | _ => mask

/-- The signal mask after a sequence of calls, starting from the mask `m0`. -/
def maskAfter (m0 : List Int) (tr : List Event) : List Int := tr.foldl maskStep m0

/-- A call of `addjob` on the global job list: the call is recorded, then what it prints. -/
def call_addjob (s : Shell) (pid state : Int) (cmdline : String) : Shell :=
  let r := addjob s.verbose s.jobs pid state cmdline
  { jobs := r.jobs, verbose := s.verbose,
    trace := s.trace ++ [Event.addjob pid state] ++ r.out.map Event.printf }

/-- The write `job->state = st` through the pointer `&jobs[i]`. -/
def setState (jobs : List job_t) (i : Nat) (st : Int) : List job_t :=
  match jobs[i]? with
  | some j => jobs.set i { j with state := st }
  | none => jobs

/-- Where the shell's control path is. -/
inductive Ctl where
  /-- In `main`'s loop, about to read the next line. -/
  | prompt
  /-- In `execpipeline`'s `while (k < c1)` loop, before iteration `k`. -/
  | pipeline (commands : List String) (k c1 : Nat) (bgflag : Bool) (masker : List Int)
      (cmdline : String)
  /-- About to call `waitfg`: on `fgpid(jobs)`, still to be evaluated, when `arg` is
  `none`, and on the pid `arg` otherwise; `next` follows the call. -/
  | callWaitfg (arg : Option Int) (next : Ctl)
  /-- Inside `waitfg(pid)`, in its `while (pid == fgpid(jobs))` loop; `next` follows the
  call. -/
  | waitfg (pid : Int) (next : Ctl)
  /-- The process called `exit`. -/
  | exited (code : Int)
  /-- The process wrote or read through a NULL pointer. -/
  | crashed
  /-- This process is the forked child: it replaces its image with the given argument
  vector, or exits with an error message. -/
  | child (image : Except String (List String))
  deriving Repr

/-! ## Signal handlers -/

/-- What `waitpid` reports about a child: it exited, was terminated by a signal, or was
stopped. -/
inductive wstatus where
  | exited (code : Nat)
  | signaled (sig : Nat)
  | stopped (sig : Nat)
  deriving DecidableEq, Repr

/-- The macro `WIFSIGNALED`. -/
def WIFSIGNALED : wstatus → Bool
  | .signaled _ => true
  | _ => false

/-- The macro `WIFEXITED`. -/
def WIFEXITED : wstatus → Bool
  | .exited _ => true
  | _ => false

/-- The macro `WIFSTOPPED`. -/
def WIFSTOPPED : wstatus → Bool
  | .stopped _ => true
  | _ => false

/-- Body of the `while` loop of `sigchld_handler` for one reaped child.  The result is
`none` when the body writes through a NULL `job_handle`. -/
def sigchld_body (s : Shell) (group_pid : Int) (sta : wstatus) : Option Shell :=
  let job_handle := getjobpid s.jobs group_pid
  if WIFSIGNALED sta then
    let s1 := emit s [.printf ("Job [" ++ toString (pid2jid s.jobs group_pid) ++ "] (" ++
      toString group_pid ++ ") terminated by signal 2\n")]
    some { s1 with jobs := (deletejob s1.jobs group_pid).2 }
  else if WIFEXITED sta then
    some { s with jobs := (deletejob s.jobs group_pid).2 }
  else if WIFSTOPPED sta then
    let s1 := emit s [.printf ("Job [" ++ toString (pid2jid s.jobs group_pid) ++ "] (" ++
      toString group_pid ++ ") stopped by signal 20\n")]
    match job_handle with
    | some i => some { s1 with jobs := setState s1.jobs i ST }
    | none => none
  else some s

/-- The function `sigchld_handler`.  `reaped` lists what the successive `waitpid` calls
return; the loop ends at the first pid that is not positive, or with the list. -/
def sigchld_handler (s : Shell) : List (Int × wstatus) → Option Shell
  | [] => some s
  | (group_pid, sta) :: rest =>
    if group_pid > 0 then
      match sigchld_body s group_pid sta with
      | some s1 => sigchld_handler s1 rest
      | none => none
    else some s

/-- The libc predicate `isspace` in the C locale. -/
def isspace (c : Char) : Bool :=
  c == ' ' || c == '\t' || c == '\n' || c == '\x0b' || c == '\x0c' || c == '\r'

/-- Value of the leading decimal digits of `cs`, continuing from `acc`. -/
def digitsValue : List Char → Nat → Nat
  | [], acc => acc
  | c :: cs, acc => if c.isDigit then digitsValue cs (acc * 10 + (c.toNat - '0'.toNat)) else acc

/-- The libc function `strtol(s, NULL, 10)` for a 64-bit `long`: leading white space, an
optional sign, then decimal digits; 0 when there are no digits; clamped to the range of
`long`. -/
def strtol (s : String) : Int :=
  let cs := s.toList.dropWhile isspace
  let signed : Bool × List Char :=
    match cs with
    | '-' :: r => (true, r)
    | '+' :: r => (false, r)
    | _ => (false, cs)
  let v : Int := (digitsValue signed.2 0 : Nat)
  let w : Int := if signed.1 then -v else v
  if w < -(2 : Int) ^ 63 then -(2 : Int) ^ 63
  else if w > (2 : Int) ^ 63 - 1 then (2 : Int) ^ 63 - 1
  else w

/-- Conversion of a `long` to a 32-bit `int`. -/
def toInt32 (v : Int) : Int := (v + 2 ^ 31) % 2 ^ 32 - 2 ^ 31

/-- The locals `curr`, `job`, `jid`, `pid` of `do_bgfg` after its lookup. -/
structure Target where
  curr : Option Nat
  job : Bool
  jid : Int
  pid : Int
  deriving DecidableEq, Repr

/-- The lookup at the start of `do_bgfg` (`if (argv[1][0] == '%') ... else if (strtol ...)`).
The error case is the early `return` after the lookup by jid fails; it carries `jid`. -/
def bgfg_lookup (jobs : List job_t) (arg : String) : Except Int Target :=
  if arg.toList.head? = some '%' then
    let jid := toInt32 (strtol (String.mk (arg.toList.drop 1)))
    match getjobjid jobs jid with
    | none => .error jid
    | some i => .ok { curr := some i, job := true, jid := jid, pid := (jobs.getD i clearjob).pid }
  else if strtol arg ≠ 0 then
    let pid := toInt32 (strtol arg)
    .ok { curr := getjobpid jobs pid, job := false, jid := 0, pid := pid }
  else .ok { curr := none, job := false, jid := 0, pid := 0 }

/-- The `for` loop of `do_bgfg` over the characters of `argv[1]`: true when it finds a
character that is neither `%` nor a decimal digit. -/
def bgfg_malformed (arg : String) : Bool :=
  arg.toList.any (fun c => c != '%' && (c < '0' || c > '9'))

/-- The function `do_bgfg`: execute the builtin bg and fg commands. -/
def do_bgfg (s : Shell) (argv : List String) : Shell × Ctl :=
  let cmd := argv.getD 0 ""
  match argv[1]? with
  | none =>
    if cmd == "bg" then (emit s [.printf "bg: command requires PID or %jid argument\n"], .prompt)
    else if cmd == "fg" then
      (emit s [.printf "fg: command requires PID or %jid argument\n"], .prompt)
    else (s, .prompt)
  | some arg =>
    match bgfg_lookup s.jobs arg with
    | .error jid => (emit s [.printf ("%" ++ toString jid ++ ": No such job\n")], .prompt)
    | .ok t =>
      if bgfg_malformed arg then
        if cmd == "bg" then (emit s [.printf "bg: argument must be a PID or %jid\n"], .prompt)
        else if cmd == "fg" then
          (emit s [.printf "fg: argument must be a PID or %jid\n"], .prompt)
        else (s, .prompt)
      else
        match t.curr with
        | none =>
          if t.job then (emit s [.printf ("%" ++ toString t.jid ++ ": No such job\n")], .prompt)
          else (emit s [.printf ("(" ++ toString t.pid ++ "): No such process\n")], .prompt)
        | some i =>
          let curr := s.jobs.getD i clearjob
          if cmd == "bg" then
            let s1 := if curr.state = ST then
                emit { s with jobs := setState s.jobs i BG } [.kill curr.pid SIGCONT]
              else s
            (emit s1 [.printf ("[" ++ toString curr.jid ++ "] (" ++ toString curr.pid ++ ") " ++
              curr.cmdline)], .prompt)
          else
            if curr.state = ST then
              (emit { s with jobs := setState s.jobs i FG } [.kill (-curr.pid) SIGCONT],
                .callWaitfg (some t.pid) .prompt)
            else if curr.state = BG then
              (emit { s with jobs := setState s.jobs i FG } [.kill (-curr.pid) SIGCONT],
                .callWaitfg none .prompt)
            else (s, .prompt)

/-- One line of `listjobs` for a slot, empty when the slot is not in use. -/
def listjobs_slot (i : Nat) (j : job_t) : List String :=
  if j.pid ≠ 0 then
    ["[" ++ toString j.jid ++ "] (" ++ toString j.pid ++ ") ",
     if j.state = BG then "Running "
     else if j.state = FG then "Foreground "
     else if j.state = ST then "Stopped "
     else "listjobs: Internal error: job[" ++ toString i ++ "].state=" ++ toString j.state ++ " ",
     j.cmdline]
  else []

/-- The function `listjobs`: what it prints. -/
def listjobs (jobs : List job_t) : List String :=
  (jobs.enum.map (fun p => listjobs_slot p.1 p.2)).flatten

/-- The function `builtin_cmd`: `none` is the return value 0 (not a builtin command). -/
def builtin_cmd (s : Shell) (argv : List String) : Option (Shell × Ctl) :=
  let input := argv.getD 0 ""
  if input == "quit" then some (s, .exited 0)
  else if input == "bg" || input == "fg" then some (do_bgfg s argv)
  else if input == "jobs" then some (emit s ((listjobs s.jobs).map Event.printf), .prompt)
  else none

/-! ## The command line -/

/-- The loops `while (*buf && (*buf == ' ')) buf++;` of `parseline`. -/
def skipSpaces (buf : List Char) : List Char := buf.dropWhile (fun c => c == ' ')

/-- The library call `strchr(buf, d)`: the characters before the first `d` and the
characters after it, `none` when `d` does not occur. -/
def strchr (d : Char) : List Char → Option (List Char × List Char)
  | [] => none
  | c :: cs =>
    if c == d then some ([], cs)
    else (strchr d cs).map (fun r => (c :: r.1, r.2))

/-- The `while (delim)` loop of `parseline` together with the computation of `delim`
before it, with `fuel` bounding the number of arguments. -/
def parseArgs : Nat → List Char → List String
  | 0, _ => []
  | fuel + 1, buf =>
    let found :=
      match buf with
      | '\'' :: rest => strchr '\'' rest
      | _ => strchr ' ' buf
    match found with
    | none => []
    | some (arg, rest) => String.mk arg :: parseArgs fuel (skipSpaces rest)

/-- The function `parseline`: the argument list `argv[0..argc-1]`; its return value is the
length of that list and `argv[argc]` is NULL.  The last character of the line (the
newline) is replaced by a space first.  Every pass of the loop consumes at least the
delimiter, so the length of the buffer is enough fuel.  The array `argv` that `eval`
allocates has room for `MAXARGS` pointers; a line with `MAXARGS` or more arguments writes
past it in C, which this list does not show. -/
def parseline (cmdline : String) : List String :=
  let buf := cmdline.toList.dropLast ++ [' ']
  parseArgs buf.length (skipSpaces buf)

/-- Is the token one of the two redirection operators? -/
def isRedir (t : String) : Bool := t == "<" || t == ">"

/-- A redirection applied by `ioredirection`: the path opened and the descriptor it is
duplicated onto (0 standard input, 1 standard output). -/
structure Redir where
  path : String
  fd : Nat
  deriving DecidableEq, Repr

/-- The `for (i = 0; argv[i] != NULL; i++)` loop of `ioredirection`, on the part of the
array from index `i` on.  The loop reads `argv[i]` and `argv[i + 1]` and writes `argv[i]`
only, so it is a recursion on that part.  `opens path` tells whether `open` succeeds; a
failing `open` (also of a NULL path) ends the child with `exit(1)`, here an error. -/
def ioredirection (opens : String → Bool) :
    List (Option String) → Except String (List (Option String) × List Redir)
  | [] => .ok ([], [])
  | none :: rest => .ok (none :: rest, [])
  | some t :: rest =>
    if t == "<" then
      match rest.head? with
      | some (some path) =>
        if opens path then
          match ioredirection opens rest with
          | .ok (argv, rs) => .ok (none :: argv, { path := path, fd := 0 } :: rs)
          | .error e => .error e
        else .error "Input redirection error"
      | _ => .error "Input redirection error"
    else if t == ">" then
      match rest.head? with
      | some (some path) =>
        if opens path then
          match ioredirection opens rest with
          | .ok (argv, rs) => .ok (none :: argv, { path := path, fd := 1 } :: rs)
          | .error e => .error e
        else .error "Output redirection error"
      | _ => .error "Output redirection error"
    else
      match ioredirection opens rest with
      | .ok (argv, rs) => .ok (some t :: argv, rs)
      | .error e => .error e

/-- The argument vector `execvp(argv[0], argv)` receives: the entries of the array before
the first NULL. -/
def execvpArgs (argv : List (Option String)) : List String :=
  (argv.takeWhile Option.isSome).filterMap id

/-- The child branch of `eval` (`pid == 0`) from `ioredirection` on: the argument vector
handed to `execvp`, or the error message the child exits with.  `argv` is the argument
list of `parseline`, stored in the array followed by NULL. -/
def eval_child (opens : String → Bool) (argv : List String) (bgflag : Bool) (bgrt : Nat) :
    Except String (List String) :=
  match ioredirection opens (argv.map some ++ [none]) with
  | .error e => .error e
  | .ok (arr, _) =>
    let arr1 := if bgflag then arr.set (bgrt - 1) none else arr
    .ok (execvpArgs arr1)

/-- What the environment answers to the calls of one `eval`: the return value of the
`k`-th `fork`, whether the `k`-th `pipe` succeeds, and whether `open` succeeds on a path
(in the child). -/
structure Env where
  forkRet : Nat → Int
  pipeOk : Nat → Bool
  opens : String → Bool

/-- The argument list `pipcmds[k]` that `execpipeline` builds for command `k`: the tokens
between the `|` tokens.  The rows of `pipcmds` are not NULL-terminated by the code; the
entry after the last token is taken to be NULL. -/
def stageArgs (commands : List String) (k : Nat) : List String :=
  (commands.splitOn "|").getD k []

/-- The `while (k < c1)` loop of `execpipeline` in the shell process, from iteration `k`
with `n` iterations left, up to the point where it returns, calls `waitfg`, exits, or
reads through NULL.  In the child (`fork` returned 0) the descriptors are rearranged and
the image replaced. -/
def pipeLoop (env : Env) (commands : List String) (bgflag : Bool) (masker : List Int)
    (cmdline : String) (c1 : Nat) : Nat → Nat → Shell → Shell × Ctl
  | 0, _, s => (s, .prompt)
  | n + 1, k, s =>
    if !env.pipeOk k then (emit s [.pipe, .printf "Piping Error"], .exited 1)
    else
      let pid := env.forkRet k
      let s1 := emit s [.pipe, .fork pid]
      if pid = 0 then (s1, .child (.ok (stageArgs commands k)))
      else if pid < 0 then (s1, .exited 1)
      else
        let s2 := emit s1 [.sigprocmask SIG_SETMASK masker]
        if !bgflag then
          (call_addjob s2 pid FG cmdline,
            .callWaitfg none (.pipeline commands (k + 1) c1 bgflag masker cmdline))
        else
          let s3 := call_addjob s2 pid BG cmdline
          match getjobpid s3.jobs pid with
          | none => (s3, .crashed)
          | some i =>
            pipeLoop env commands bgflag masker cmdline c1 n (k + 1)
              (emit s3 [.printf ("[" ++ toString (pid2jid s3.jobs pid) ++ "] (" ++
                toString pid ++ ") " ++ (s3.jobs.getD i clearjob).cmdline)])

/-- The number of commands `c1` that `execpipeline` counts: one more than the number of
`|` tokens. -/
def stageCount (commands : List String) : Nat := commands.count "|" + 1

/-- The function `execpipeline` in the shell process. -/
def execpipeline (env : Env) (s : Shell) (commands : List String) (num_cmds : Nat)
    (masker : List Int) (cmdline : String) : Shell × Ctl :=
  let bgflag := commands.getD (num_cmds - 1) "" == "&"
  let c1 := stageCount commands
  pipeLoop env commands bgflag masker cmdline c1 c1 0 s

/-- The last branch of `eval`: a single command that is not built in. -/
def eval_launch (env : Env) (s : Shell) (argv : List String) (bgrt : Nat) (cmdline : String) :
    Shell × Ctl :=
  let masker := [SIGCHLD, SIGTSTP, SIGINT]
  let s1 := emit s [.sigprocmask SIG_BLOCK masker]
  let bgflag := argv.getD (bgrt - 1) "" == "&"
  let pid := env.forkRet 0
  let s2 := emit s1 [.fork pid]
  if pid = 0 then
    (emit s2 [.sigprocmask SIG_UNBLOCK masker, .setpgid 0 0],
      .child (eval_child env.opens argv bgflag bgrt))
  else if pid < 0 then (emit s2 [.printf "Forking error.\n"], .prompt)
  else
    let s3 := emit s2 [.setpgid pid pid, .sigprocmask SIG_UNBLOCK masker,
      .Signal SIGTSTP, .Signal SIGINT]
    if !bgflag then
      (call_addjob s3 pid FG cmdline, .callWaitfg none .prompt)
    else
      let s4 := call_addjob s3 pid BG cmdline
      match getjobpid s4.jobs pid with
      | none => (s4, .crashed)
      | some i =>
        (emit s4 [.printf ("[" ++ toString (pid2jid s4.jobs pid) ++ "] (" ++ toString pid ++
          ") " ++ (s4.jobs.getD i clearjob).cmdline)], .prompt)

/-- The function `eval`: evaluate the command line that the user has just typed in, up
to the point where it returns to `main`, calls `waitfg`, exits, or reads through NULL.
`m0` is the signal mask the process started with. -/
def eval (env : Env) (m0 : List Int) (s : Shell) (cmdline : String) : Shell × Ctl :=
  let argv := parseline cmdline
  let bgrt := argv.length
  let pipeflag := argv.any (fun t => t == "|")
  if argv.isEmpty then (s, .prompt)
  else if pipeflag then
    let masker := [SIGCHLD, SIGINT, SIGTSTP]
    let masker2 := maskAfter m0 s.trace
    execpipeline env (emit s [.sigprocmask SIG_BLOCK masker]) argv bgrt masker2 cmdline
  else
    match builtin_cmd s argv with
    | some r => r
    | none => eval_launch env s argv bgrt cmdline

/-- A shell state with the job list `sampleJobs` and nothing printed yet. -/
def sampleShell : Shell := { jobs := sampleJobs, verbose := false, trace := [] }

/-- A shell state right after `initjobs`. -/
def freshShell : Shell := { jobs := initjobs, verbose := false, trace := [] }

/-- The argument vector as the specification words it: the sequence with each redirection
operator and the path token after it removed, every other token kept in order. -/
def removeRedirs : List String → List String
  | [] => []
  | [t] => if isRedir t then [] else [t]
  | t :: p :: rest => if isRedir t then removeRedirs rest else t :: removeRedirs (p :: rest)

/-- Every `<` or `>` token is followed by a token, and `open` succeeds on that token. -/
def RedirsOpen (opens : String → Bool) : List String → Prop
  | [] => True
  | t :: rest => (isRedir t = true → ∃ p, rest.head? = some p ∧ opens p = true) ∧
      RedirsOpen opens rest

/-- The environment in which `fork` returns 0: this process is the child. -/
def childEnv : Env := { forkRet := fun _ => 0, pipeOk := fun _ => true, opens := fun _ => true }

/-- The environment in which the `k`-th `fork` returns the pid `500 + k`. -/
def parentEnv : Env :=
  { forkRet := fun k => 500 + (k : Int), pipeOk := fun _ => true, opens := fun _ => true }

/-- A shell state whose job list holds `MAXJOBS` live jobs. -/
def fullShell : Shell := { jobs := fullJobs, verbose := false, trace := [] }

/-- The text of a line that lies before an argument start, with the arguments `parseline`
finds in it: nothing; a space and more text; a word (not empty, without a space, not
starting with a single quote) with the space that ends it, and more text; or a quoted
argument (a single quote, characters other than a single quote, a single quote), and more
text. -/
inductive ArgText : List Char → List String → Prop where
  | done : ArgText [] []
  | space (rest : List Char) (toks : List String) :
      ArgText rest toks → ArgText (' ' :: rest) toks
  | word (w rest : List Char) (toks : List String) :
      w ≠ [] → (∀ c ∈ w, c ≠ ' ') → w.head? ≠ some '\'' → ArgText rest toks →
      ArgText (w ++ ' ' :: rest) (String.mk w :: toks)
  | quoted (q rest : List Char) (toks : List String) :
      (∀ c ∈ q, c ≠ '\'') → ArgText rest toks →
      ArgText ('\'' :: (q ++ '\'' :: rest)) (String.mk q :: toks)

/-! ## Facts about the slot scan -/

theorem firstSlot_none {p : job_t → Bool} {l : List job_t} :
    firstSlot p l = none ↔ ∀ j ∈ l, p j = false := by
  induction l with
  | nil => simp [firstSlot]
  | cons a l ih =>
    by_cases h : p a = true
    · simp [firstSlot, h]
    · simp [firstSlot, h, ih]

theorem firstSlot_some {p : job_t → Bool} {l : List job_t} {i : Nat}
    (h : firstSlot p l = some i) :
    ∃ j, l[i]? = some j ∧ p j = true ∧ ∀ k, k < i → ∀ j', l[k]? = some j' → p j' = false := by
  induction l generalizing i with
  | nil => simp [firstSlot] at h
  | cons a l ih =>
    by_cases ha : p a = true
    · simp [firstSlot, ha] at h
      subst h
      exact ⟨a, by simp, ha, by intro k hk; omega⟩
    · simp [firstSlot, ha] at h
      obtain ⟨i', hi', rfl⟩ := h
      obtain ⟨j, hj, hpj, hlt⟩ := ih hi'
      refine ⟨j, by simpa using hj, hpj, ?_⟩
      intro k hk j' hj'
      cases k with
      | zero => simp at hj'; subst hj'; simpa using ha
      | succ k => exact hlt k (by omega) j' (by simpa using hj')

theorem firstSlot_lt {p : job_t → Bool} {l : List job_t} {i : Nat}
    (h : firstSlot p l = some i) : i < l.length := by
  obtain ⟨j, hj, _⟩ := firstSlot_some h
  exact (List.getElem?_eq_some.mp hj).1

theorem firstSlot_isSome (p : job_t → Bool) {l : List job_t} {j : job_t}
    (hj : j ∈ l) (hp : p j = true) : ∃ i, firstSlot p l = some i := by
  cases h : firstSlot p l with
  | none => rw [firstSlot_none] at h; simp [h j hj] at hp
  | some i => exact ⟨i, rfl⟩

/-! ## Facts about `freejid` -/

theorem markTaken_length (t : List Bool) (j : job_t) : (markTaken t j).length = t.length := by
  unfold markTaken
  split_ifs <;> simp

theorem markTaken_getD (t : List Bool) (j : job_t) (k : Nat) (hk1 : 1 ≤ k)
    (hk : k < t.length) (ht : t.length = MAXJOBS + 1) :
    ((markTaken t j).getD k false = true ↔ t.getD k false = true ∨ j.jid = (k : Int)) := by
  unfold markTaken
  have hM : (MAXJOBS : Int) = 16 := rfl
  have hM' : MAXJOBS = 16 := rfl
  split_ifs with h0 hr
  · by_cases hjk : j.jid = (k : Int)
    · have : j.jid.toNat = k := by omega
      simp [List.getD_eq_getElem?_getD, List.getElem?_set, this, hk, hjk]
    · have : j.jid.toNat ≠ k := by omega
      simp [List.getD_eq_getElem?_getD, List.getElem?_set, this, hjk]
  · have : j.jid ≠ (k : Int) := by omega
    simp [this]
  · have : j.jid ≠ (k : Int) := by omega
    simp [this]

theorem foldl_markTaken_getD (jobs : List job_t) (t : List Bool) (k : Nat) (hk1 : 1 ≤ k)
    (hk : k < t.length) (ht : t.length = MAXJOBS + 1) :
    ((jobs.foldl markTaken t).getD k false = true ↔
      t.getD k false = true ∨ ∃ j ∈ jobs, j.jid = (k : Int)) := by
  induction jobs generalizing t with
  | nil => simp
  | cons a l ih =>
    rw [List.foldl, ih (markTaken t a) (by rw [markTaken_length]; exact hk)
      (by rw [markTaken_length]; exact ht), markTaken_getD t a k hk1 hk ht]
    simp only [List.mem_cons, exists_eq_or_imp]
    tauto

theorem takenOf_getD (jobs : List job_t) (k : Nat) (hk1 : 1 ≤ k) (hk : k ≤ MAXJOBS) :
    ((takenOf jobs).getD k false = true ↔ ∃ j ∈ jobs, j.jid = (k : Int)) := by
  unfold takenOf
  rw [foldl_markTaken_getD jobs _ k hk1 (by simp; omega) (by simp)]
  have hlt : k < MAXJOBS + 1 := by omega
  simp [List.getD_eq_getElem?_getD, List.getElem?_replicate, hlt]

theorem freejidScan_spec (t : List Bool) (i n : Nat) :
    (freejidScan t i n = 0 ∧ (i = 0 ∨ ∀ k, i ≤ k → k < i + n → t.getD k false = true)) ∨
    (∃ r : Nat, freejidScan t i n = (r : Int) ∧ i ≤ r ∧ r < i + n ∧ t.getD r false = false ∧
      ∀ k, i ≤ k → k < r → t.getD k false = true) := by
  induction n generalizing i with
  | zero => left; exact ⟨rfl, Or.inr (by intro k h1 h2; omega)⟩
  | succ n ih =>
    unfold freejidScan
    by_cases h : t.getD i false = true
    · simp only [h, Bool.not_true, Bool.false_eq_true, if_false]
      rcases ih (i + 1) with ⟨h0, hall⟩ | ⟨r, hr, h1, h2, h3, h4⟩
      · left
        refine ⟨h0, Or.inr ?_⟩
        intro k hk1 hk2
        rcases hall with hz | hall
        · omega
        · by_cases hki : k = i
          · subst hki; exact h
          · exact hall k (by omega) (by omega)
      · right
        refine ⟨r, hr, by omega, by omega, h3, ?_⟩
        intro k hk1 hk2
        by_cases hki : k = i
        · subst hki; exact h
        · exact h4 k (by omega) hk2
    · right
      have h' : t.getD i false = false := by simpa using h
      refine ⟨i, by rw [h']; rfl, le_refl _, by omega, h', by intro k h1 h2; omega⟩

/-- What `freejid` returns: 0 when every id in 1..MAXJOBS is the jid of some slot,
otherwise the smallest id in 1..MAXJOBS that is the jid of no slot. -/
theorem freejid_spec (jobs : List job_t) :
    (freejid jobs = 0 ∧ ∀ k : Int, 1 ≤ k → k ≤ (MAXJOBS : Int) → ∃ j ∈ jobs, j.jid = k) ∨
    (1 ≤ freejid jobs ∧ freejid jobs ≤ (MAXJOBS : Int) ∧ (∀ j ∈ jobs, j.jid ≠ freejid jobs) ∧
      ∀ k : Int, 1 ≤ k → k < freejid jobs → ∃ j ∈ jobs, j.jid = k) := by
  have hM : (MAXJOBS : Int) = 16 := rfl
  have hM' : MAXJOBS = 16 := rfl
  unfold freejid
  rcases freejidScan_spec (takenOf jobs) 1 MAXJOBS with ⟨h0, hall⟩ | ⟨r, hr, h1, h2, h3, h4⟩
  · left
    refine ⟨h0, ?_⟩
    intro k hk1 hk2
    rcases hall with hz | hall
    · omega
    · have := hall k.toNat (by omega) (by omega)
      rw [takenOf_getD jobs k.toNat (by omega) (by omega)] at this
      obtain ⟨j, hj, hjk⟩ := this
      exact ⟨j, hj, by omega⟩
  · right
    rw [hr]
    refine ⟨by omega, by omega, ?_, ?_⟩
    · intro j hj hjr
      have : (takenOf jobs).getD r false = true :=
        (takenOf_getD jobs r h1 (by omega)).mpr ⟨j, hj, hjr⟩
      rw [h3] at this
      exact Bool.false_ne_true this
    · intro k hk1 hk2
      have := h4 k.toNat (by omega) (by omega)
      rw [takenOf_getD jobs k.toNat (by omega) (by omega)] at this
      obtain ⟨j, hj, hjk⟩ := this
      exact ⟨j, hj, by omega⟩

/-! ## Well-formed job lists: counting -/

theorem mem_jidRange (k : Int) : k ∈ jidRange ↔ 1 ≤ k ∧ k ≤ (MAXJOBS : Int) := by
  have hM : (MAXJOBS : Int) = 16 := rfl
  have hM' : MAXJOBS = 16 := rfl
  show k ∈ (List.range' 1 MAXJOBS).map (fun (n : Nat) => (n : Int)) ↔ _
  rw [List.mem_map]
  constructor
  · rintro ⟨n, hn, rfl⟩
    rw [List.mem_range'_1] at hn
    omega
  · intro h
    exact ⟨k.toNat, List.mem_range'_1.mpr (by omega), by omega⟩

theorem jidRange_nodup : jidRange.Nodup := by decide

theorem jidRange_length : jidRange.length = MAXJOBS := by decide

theorem mem_liveJids {jobs : List job_t} {k : Int} :
    k ∈ liveJids jobs ↔ ∃ j ∈ jobs, j.pid ≠ 0 ∧ j.jid = k := by
  simp [liveJids, live, and_assoc]

theorem liveJids_append (l1 l2 : List job_t) :
    liveJids (l1 ++ l2) = liveJids l1 ++ liveJids l2 := by
  simp [liveJids]

theorem liveJids_cons (a : job_t) (l : List job_t) :
    liveJids (a :: l) = if a.pid ≠ 0 then a.jid :: liveJids l else liveJids l := by
  by_cases h : a.pid = 0 <;> simp [liveJids, live, List.filter_cons, h]

theorem liveJids_length_le (jobs : List job_t) : (liveJids jobs).length ≤ jobs.length := by
  simp [liveJids, List.length_filter_le]

theorem liveJids_length_lt {jobs : List job_t} (h : ∃ j ∈ jobs, j.pid = 0) :
    (liveJids jobs).length < jobs.length := by
  obtain ⟨j, hj, hp⟩ := h
  obtain ⟨l1, l2, rfl⟩ := List.append_of_mem hj
  have h1 := liveJids_length_le l1
  have h2 := liveJids_length_le l2
  simp [liveJids_append, liveJids_cons, hp]
  omega

theorem liveJids_of_all_live {jobs : List job_t} (h : ∀ j ∈ jobs, j.pid ≠ 0) :
    liveJids jobs = jobs.map (fun j => j.jid) := by
  unfold liveJids
  rw [List.filter_eq_self.mpr]
  intro j hj
  simp [live, h j hj]

/-- In a well-formed list with an empty slot some id in 1..MAXJOBS is unused. -/
theorem freejid_ne_zero {jobs : List job_t} (hwf : WellFormed jobs)
    (hfree : ∃ j ∈ jobs, j.pid = 0) : freejid jobs ≠ 0 := by
  obtain ⟨hlen, hslot, _⟩ := hwf
  intro h0
  rcases freejid_spec jobs with ⟨_, hall⟩ | ⟨h1, _⟩
  · have hsub : jidRange ⊆ liveJids jobs := by
      intro k hk
      rw [mem_jidRange] at hk
      obtain ⟨j, hj, hjk⟩ := hall k hk.1 hk.2
      rw [mem_liveJids]
      refine ⟨j, hj, ?_, hjk⟩
      rcases hslot j hj with ⟨_, hz⟩ | ⟨hp, _⟩
      · omega
      · omega
    have hle := (List.subperm_of_subset jidRange_nodup hsub).length_le
    have hlt := liveJids_length_lt hfree
    rw [jidRange_length] at hle
    omega
  · omega

/-- In a well-formed list without an empty slot every id in 1..MAXJOBS is used. -/
theorem freejid_eq_zero {jobs : List job_t} (hwf : WellFormed jobs)
    (hfull : ∀ j ∈ jobs, j.pid ≠ 0) : freejid jobs = 0 := by
  obtain ⟨hlen, hslot, hnd⟩ := hwf
  rcases freejid_spec jobs with ⟨h0, _⟩ | ⟨h1, h2, hfresh, _⟩
  · exact h0
  · exfalso
    have hsub : liveJids jobs ⊆ jidRange.erase (freejid jobs) := by
      intro k hk
      rw [mem_liveJids] at hk
      obtain ⟨j, hj, hp, rfl⟩ := hk
      rw [List.Nodup.mem_erase_iff jidRange_nodup, mem_jidRange]
      refine ⟨hfresh j hj, ?_⟩
      rcases hslot j hj with ⟨hz, _⟩ | ⟨_, hb⟩
      · exact absurd hz hp
      · exact hb
    have hle := (List.subperm_of_subset hnd hsub).length_le
    have hmem : freejid jobs ∈ jidRange := (mem_jidRange _).mpr ⟨h1, h2⟩
    rw [List.length_erase_of_mem hmem, jidRange_length, liveJids_of_all_live hfull,
      List.length_map, hlen] at hle
    have hM' : MAXJOBS = 16 := rfl
    omega

/-! ## Writing one slot -/

theorem split_at_slot {l : List job_t} {i : Nat} {e : job_t} (h : l[i]? = some e) :
    ∃ l1 l2, l = l1 ++ e :: l2 ∧ l1.length = i ∧ ∀ a, l.set i a = l1 ++ a :: l2 := by
  induction l generalizing i with
  | nil => simp at h
  | cons b l ih =>
    cases i with
    | zero =>
      simp at h
      subst h
      exact ⟨[], l, rfl, rfl, fun a => rfl⟩
    | succ i =>
      obtain ⟨l1, l2, h1, h2, h3⟩ := ih (by simpa using h)
      refine ⟨b :: l1, l2, by simp [h1], by simp [h2], ?_⟩
      intro a
      simp [List.set, h3 a]

theorem firstSlot_set_new {p : job_t → Bool} {l : List job_t} {i : Nat} {a : job_t}
    (hl : ∀ j ∈ l, p j = false) (ha : p a = true) (hi : i < l.length) :
    firstSlot p (l.set i a) = some i := by
  induction l generalizing i with
  | nil => simp at hi
  | cons b l ih =>
    cases i with
    | zero => simp [List.set, firstSlot, ha]
    | succ i =>
      have hb : p b = false := hl b (by simp)
      have := ih (fun j hj => hl j (by simp [hj])) (by simpa using hi)
      simp [List.set, firstSlot, hb, this]

theorem mem_set_cases {l : List job_t} {i : Nat} {a j : job_t} (h : j ∈ l.set i a) :
    j = a ∨ j ∈ l := by
  rcases List.mem_or_eq_of_mem_set h with h | h
  · exact Or.inr h
  · exact Or.inl h

/-- Filling an empty slot with a fresh jid keeps the list well formed. -/
theorem wellFormed_set_new {jobs : List job_t} {i : Nat} {e a : job_t}
    (hwf : WellFormed jobs) (hi : jobs[i]? = some e) (he : e.pid = 0)
    (ha : 1 ≤ a.pid ∧ 1 ≤ a.jid ∧ a.jid ≤ (MAXJOBS : Int))
    (hfresh : ∀ j ∈ jobs, j.pid ≠ 0 → j.jid ≠ a.jid) : WellFormed (jobs.set i a) := by
  obtain ⟨hlen, hslot, hnd⟩ := hwf
  refine ⟨by simpa using hlen, ?_, ?_⟩
  · intro j hj
    rcases mem_set_cases hj with rfl | hj
    · exact Or.inr ha
    · exact hslot j hj
  · obtain ⟨l1, l2, h1, _, h3⟩ := split_at_slot hi
    rw [h3 a]
    rw [h1] at hnd hfresh
    have hap : a.pid ≠ 0 := by omega
    simp only [liveJids_append, liveJids_cons, he, hap, ne_eq, not_true_eq_false,
      not_false_eq_true, if_true, if_false] at hnd ⊢
    rw [List.nodup_middle, List.nodup_cons]
    refine ⟨?_, hnd⟩
    intro hmem
    rw [← liveJids_append, mem_liveJids] at hmem
    obtain ⟨j, hj, hp, hjid⟩ := hmem
    refine hfresh j ?_ hp hjid
    rw [List.mem_append] at hj ⊢
    rcases hj with hj | hj
    · exact Or.inl hj
    · exact Or.inr (List.mem_cons_of_mem _ hj)

/-- Clearing a slot keeps the list well formed. -/
theorem wellFormed_set_clear {jobs : List job_t} {i : Nat} (hwf : WellFormed jobs) :
    WellFormed (jobs.set i clearjob) := by
  obtain ⟨hlen, hslot, hnd⟩ := hwf
  refine ⟨by simpa using hlen, ?_, ?_⟩
  · intro j hj
    rcases mem_set_cases hj with rfl | hj
    · exact Or.inl ⟨rfl, rfl⟩
    · exact hslot j hj
  · cases hi : jobs[i]? with
    | none =>
      rw [List.getElem?_eq_none_iff] at hi
      rw [List.set_eq_of_length_le hi]
      exact hnd
    | some e =>
      obtain ⟨l1, l2, h1, _, h3⟩ := split_at_slot hi
      rw [h3 clearjob]
      rw [h1] at hnd
      have hc : clearjob.pid = 0 := rfl
      simp only [liveJids_append, liveJids_cons, hc, ne_eq, not_true_eq_false, if_false]
      simp only [liveJids_append, liveJids_cons] at hnd
      split_ifs at hnd
      · rw [List.nodup_middle, List.nodup_cons] at hnd
        exact hnd.2
      · exact hnd

theorem wellFormed_initjobs : WellFormed initjobs := by decide

theorem wellFormed_sampleJobs : WellFormed sampleJobs := by decide

theorem wellFormed_fullJobs : WellFormed fullJobs := by decide

/-! ## The job list contract -/

theorem addjob_of_free (verbose : Bool) {jobs : List job_t} {pid : Int} (state : Int)
    (cmdline : String) (hwf : WellFormed jobs) (hfree : ∃ j ∈ jobs, j.pid = 0) (hpid : 1 ≤ pid) :
    ∃ i e, firstSlot (fun j => j.pid == 0) jobs = some i ∧ jobs[i]? = some e ∧ e.pid = 0 ∧
      addjob verbose jobs pid state cmdline =
        { ret := 1
          jobs := jobs.set i { pid := pid, jid := freejid jobs, state := state, cmdline := cmdline }
          out := if verbose then
              ["Added job [" ++ toString (freejid jobs) ++ "] " ++ toString pid ++ " " ++
                cmdline ++ "\n"]
            else [] } := by
  obtain ⟨j, hj, hp⟩ := hfree
  obtain ⟨i, hi⟩ := firstSlot_isSome (fun j => j.pid == 0) hj (by simp [hp])
  obtain ⟨e, he, hpe, _⟩ := firstSlot_some hi
  refine ⟨i, e, hi, he, by simpa using hpe, ?_⟩
  have hne := freejid_ne_zero hwf ⟨j, hj, hp⟩
  have hnlt : ¬ pid < 1 := by omega
  simp only [addjob, hnlt, if_false, hne, hi]

theorem addjob_of_full (verbose : Bool) {jobs : List job_t} (pid state : Int)
    (cmdline : String) (hwf : WellFormed jobs) (hfull : ∀ j ∈ jobs, j.pid ≠ 0) :
    addjob verbose jobs pid state cmdline =
      { ret := 0, jobs := jobs,
        out := if pid < 1 then [] else ["Tried to create too many jobs\n"] } := by
  have h0 := freejid_eq_zero hwf hfull
  by_cases hp : pid < 1
  · simp [addjob, hp]
  · simp [addjob, hp, h0]

/-- C1: on a well-formed job list, for a command line that fits a slot, `addjob` returns 0
exactly when `pid < 1` or no slot is empty; otherwise it returns 1 and writes pid, state and
cmdline into a slot that was empty, with the jid `freejid` returns, which is the smallest id
in 1..MAXJOBS used by no live job. -/
theorem addjob_contract (verbose : Bool) (jobs : List job_t) (pid state : Int)
    (cmdline : String) (hwf : WellFormed jobs) (_hline : fitsLine cmdline) :
    ((addjob verbose jobs pid state cmdline).ret = 0 ↔ (pid < 1 ∨ ∀ j ∈ jobs, j.pid ≠ 0)) ∧
    (¬ (pid < 1 ∨ ∀ j ∈ jobs, j.pid ≠ 0) →
      (addjob verbose jobs pid state cmdline).ret = 1 ∧
      (∃ i e, jobs[i]? = some e ∧ e.pid = 0 ∧
        (addjob verbose jobs pid state cmdline).jobs =
          jobs.set i { pid := pid, jid := freejid jobs, state := state, cmdline := cmdline }) ∧
      1 ≤ freejid jobs ∧ freejid jobs ≤ (MAXJOBS : Int) ∧
      (∀ j ∈ jobs, j.pid ≠ 0 → j.jid ≠ freejid jobs) ∧
      (∀ k : Int, 1 ≤ k → k < freejid jobs → ∃ j ∈ jobs, j.pid ≠ 0 ∧ j.jid = k)) := by
  have hslot := hwf.2.1
  by_cases hc : pid < 1 ∨ ∀ j ∈ jobs, j.pid ≠ 0
  · refine ⟨⟨fun _ => hc, fun _ => ?_⟩, fun h => absurd hc h⟩
    rcases hc with hp | hfull
    · simp [addjob, hp]
    · rw [addjob_of_full verbose pid state cmdline hwf hfull]
  · have hc' := hc
    rw [not_or] at hc'
    obtain ⟨hp, hfree⟩ := hc'
    push_neg at hfree
    have hpid : 1 ≤ pid := by omega
    obtain ⟨i, e, _, he, hpe, hadd⟩ := addjob_of_free verbose state cmdline hwf hfree hpid
    have hne := freejid_ne_zero hwf hfree
    refine ⟨⟨fun h => ?_, fun h => absurd h hc⟩, fun _ => ?_⟩
    · rw [hadd] at h
      simp at h
    · rw [hadd]
      rcases freejid_spec jobs with ⟨h0, _⟩ | ⟨h1, h2, hfresh, hsmall⟩
      · exact absurd h0 hne
      · refine ⟨rfl, ⟨i, e, he, hpe, rfl⟩, h1, h2, fun j hj _ => hfresh j hj, ?_⟩
        intro k hk1 hk2
        obtain ⟨j, hj, hjk⟩ := hsmall k hk1 hk2
        refine ⟨j, hj, ?_, hjk⟩
        rcases hslot j hj with ⟨_, hz⟩ | ⟨hpj, _⟩
        · omega
        · omega

/-- Witness for C1: the contract of `addjob` at a list with three live jobs. -/
theorem addjob_contract_witness :
    WellFormed sampleJobs ∧ fitsLine "ls &\n" ∧
    (((addjob false sampleJobs 7 BG "ls &\n").ret = 0 ↔
        ((7 : Int) < 1 ∨ ∀ j ∈ sampleJobs, j.pid ≠ 0)) ∧
    (¬ ((7 : Int) < 1 ∨ ∀ j ∈ sampleJobs, j.pid ≠ 0) →
      (addjob false sampleJobs 7 BG "ls &\n").ret = 1 ∧
      (∃ i e, sampleJobs[i]? = some e ∧ e.pid = 0 ∧
        (addjob false sampleJobs 7 BG "ls &\n").jobs =
          sampleJobs.set i
            { pid := 7, jid := freejid sampleJobs, state := BG, cmdline := "ls &\n" }) ∧
      1 ≤ freejid sampleJobs ∧ freejid sampleJobs ≤ (MAXJOBS : Int) ∧
      (∀ j ∈ sampleJobs, j.pid ≠ 0 → j.jid ≠ freejid sampleJobs) ∧
      (∀ k : Int, 1 ≤ k → k < freejid sampleJobs → ∃ j ∈ sampleJobs, j.pid ≠ 0 ∧ j.jid = k))) :=
  ⟨wellFormed_sampleJobs, by decide,
    addjob_contract false sampleJobs 7 BG "ls &\n" wellFormed_sampleJobs (by decide)⟩

/-- C2: round trip on a well-formed job list with a free slot, for a pid >= 1 that is not in
it and a command line that fits a slot: after `addjob` (which returns 1) `getjobpid` finds
the record with that pid, the jid `addjob` assigned, the same state and the same command
text; after `deletejob` of that pid (which returns 1) `getjobpid` returns NULL. -/
theorem addjob_getjobpid_roundtrip (verbose : Bool) (jobs : List job_t) (pid state : Int)
    (cmdline : String) (hwf : WellFormed jobs) (hfree : ∃ j ∈ jobs, j.pid = 0)
    (hpid : 1 ≤ pid) (hnew : ∀ j ∈ jobs, j.pid ≠ pid) (_hline : fitsLine cmdline) :
    (addjob verbose jobs pid state cmdline).ret = 1 ∧
    deref (addjob verbose jobs pid state cmdline).jobs
        (getjobpid (addjob verbose jobs pid state cmdline).jobs pid) =
      some { pid := pid, jid := freejid jobs, state := state, cmdline := cmdline } ∧
    pid2jid (addjob verbose jobs pid state cmdline).jobs pid = freejid jobs ∧
    (deletejob (addjob verbose jobs pid state cmdline).jobs pid).1 = 1 ∧
    getjobpid (deletejob (addjob verbose jobs pid state cmdline).jobs pid).2 pid = none := by
  obtain ⟨i, e, hi, he, hpe, hadd⟩ := addjob_of_free verbose state cmdline hwf hfree hpid
  have hlt : i < jobs.length := firstSlot_lt hi
  have hnlt : ¬ pid < 1 := by omega
  rw [hadd]
  have hfind : firstSlot (fun j => j.pid == pid)
      (jobs.set i { pid := pid, jid := freejid jobs, state := state, cmdline := cmdline }) =
      some i :=
    firstSlot_set_new (fun j hj => by simpa using hnew j hj) (by simp) hlt
  have hget : (jobs.set i
      { pid := pid, jid := freejid jobs, state := state, cmdline := cmdline })[i]? =
      some { pid := pid, jid := freejid jobs, state := state, cmdline := cmdline } := by
    simp [List.getElem?_set, hlt]
  refine ⟨rfl, ?_, ?_, ?_, ?_⟩
  · simp only [getjobpid, hnlt, if_false, hfind, deref, Option.bind]
    exact hget
  · simp only [pid2jid, hnlt, if_false, hfind, List.getD_eq_getElem?_getD, hget, Option.getD]
  · simp only [deletejob, hnlt, if_false, hfind]
  · simp only [deletejob, hnlt, if_false, hfind, getjobpid, List.set_set]
    rw [firstSlot_none]
    intro j hj
    rcases mem_set_cases hj with rfl | hj
    · have : (0 : Int) ≠ pid := by omega
      simpa [clearjob] using this
    · simpa using hnew j hj

/-- Witness for C2: the round trip at a list with three live jobs and the new pid 7. -/
theorem addjob_getjobpid_roundtrip_witness :
    (addjob false sampleJobs 7 FG "ls\n").ret = 1 ∧
    deref (addjob false sampleJobs 7 FG "ls\n").jobs
        (getjobpid (addjob false sampleJobs 7 FG "ls\n").jobs 7) =
      some { pid := 7, jid := freejid sampleJobs, state := FG, cmdline := "ls\n" } ∧
    pid2jid (addjob false sampleJobs 7 FG "ls\n").jobs 7 = freejid sampleJobs ∧
    (deletejob (addjob false sampleJobs 7 FG "ls\n").jobs 7).1 = 1 ∧
    getjobpid (deletejob (addjob false sampleJobs 7 FG "ls\n").jobs 7).2 7 = none :=
  addjob_getjobpid_roundtrip false sampleJobs 7 FG "ls\n" wellFormed_sampleJobs
    (by decide) (by decide) (by decide) (by decide)

theorem wellFormed_applyOp (verbose : Bool) (jobs : List job_t) (op : JobOp)
    (hwf : WellFormed jobs) : WellFormed (applyOp verbose jobs op) := by
  cases op with
  | add pid state cmdline =>
    show WellFormed (addjob verbose jobs pid state cmdline).jobs
    by_cases hc : pid < 1 ∨ ∀ j ∈ jobs, j.pid ≠ 0
    · rcases hc with hp | hfull
      · simpa [addjob, hp] using hwf
      · rw [addjob_of_full verbose pid state cmdline hwf hfull]
        exact hwf
    · rw [not_or] at hc
      obtain ⟨hp, hfree⟩ := hc
      push_neg at hfree
      have hpid : 1 ≤ pid := by omega
      obtain ⟨i, e, _, he, hpe, hadd⟩ := addjob_of_free verbose state cmdline hwf hfree hpid
      rw [hadd]
      rcases freejid_spec jobs with ⟨h0, _⟩ | ⟨h1, h2, hfresh, _⟩
      · exact absurd h0 (freejid_ne_zero hwf hfree)
      · exact wellFormed_set_new hwf he hpe ⟨hpid, h1, h2⟩ (fun j hj _ => hfresh j hj)
  | del pid =>
    show WellFormed (deletejob jobs pid).2
    unfold deletejob
    split_ifs
    · exact hwf
    · split
      · exact wellFormed_set_clear hwf
      · exact hwf

theorem wellFormed_foldl_applyOp (verbose : Bool) (ops : List JobOp) (jobs : List job_t)
    (hwf : WellFormed jobs) : WellFormed (ops.foldl (applyOp verbose) jobs) := by
  induction ops generalizing jobs with
  | nil => exact hwf
  | cons op ops ih => exact ih _ (wellFormed_applyOp verbose jobs op hwf)

/-- C4: after `initjobs` and any sequence of `addjob` and `deletejob` calls in which every
command line fits a slot (`strlen(cmdline) < MAXLINE`), the jids of the live jobs (slots
with pid != 0) are pairwise distinct and lie in 1..MAXJOBS. -/
theorem runOps_jids_distinct_in_range (verbose : Bool) (ops : List JobOp)
    (_hfit : ∀ op ∈ ops, op.fits) :
    (liveJids (runOps verbose ops)).Pairwise (fun a b => a ≠ b) ∧
    ∀ j ∈ runOps verbose ops, j.pid ≠ 0 → 1 ≤ j.jid ∧ j.jid ≤ (MAXJOBS : Int) := by
  obtain ⟨_, hslot, hnd⟩ := wellFormed_foldl_applyOp verbose ops initjobs wellFormed_initjobs
  refine ⟨hnd, ?_⟩
  intro j hj hp
  rcases hslot j hj with ⟨hz, _⟩ | ⟨_, h1, h2⟩
  · exact absurd hz hp
  · exact ⟨h1, h2⟩

/-- Witness for C4: four `addjob` calls and one `deletejob` call with short command lines
leave the live jids 1, 2 and 3. -/
theorem runOps_jids_distinct_in_range_witness :
    (∀ op ∈ sampleOps, op.fits) ∧
    liveJids (runOps false sampleOps) = [1, 2, 3] ∧
    (liveJids (runOps false sampleOps)).Pairwise (fun a b => a ≠ b) ∧
    ∀ j ∈ runOps false sampleOps, j.pid ≠ 0 → 1 ≤ j.jid ∧ j.jid ≤ (MAXJOBS : Int) :=
  have h := runOps_jids_distinct_in_range false sampleOps (by decide)
  ⟨by decide, by decide, h.1, h.2⟩

/-- C5 as amended: on a list of `MAXJOBS` live jobs `addjob` returns 0 and leaves every
entry unchanged; it prints "Tried to create too many jobs" when `pid >= 1` and prints
nothing when `pid < 1`. -/
theorem addjob_full_rejected (verbose : Bool) (jobs : List job_t) (pid state : Int)
    (cmdline : String) (hwf : WellFormed jobs) (hfull : ∀ j ∈ jobs, j.pid ≠ 0) :
    (addjob verbose jobs pid state cmdline).ret = 0 ∧
    (addjob verbose jobs pid state cmdline).jobs = jobs ∧
    (1 ≤ pid → (addjob verbose jobs pid state cmdline).out =
      ["Tried to create too many jobs\n"]) ∧
    (pid < 1 → (addjob verbose jobs pid state cmdline).out = []) := by
  rw [addjob_of_full verbose pid state cmdline hwf hfull]
  refine ⟨rfl, rfl, ?_, ?_⟩
  · intro h
    have : ¬ pid < 1 := by omega
    simp [this]
  · intro h
    simp [h]

/-- Witness for C5 as amended: the full list with jids 1..16 and the new pid 7. -/
theorem addjob_full_rejected_witness :
    (addjob false fullJobs 7 BG "ls &\n").ret = 0 ∧
    (addjob false fullJobs 7 BG "ls &\n").jobs = fullJobs ∧
    ((1 : Int) ≤ 7 → (addjob false fullJobs 7 BG "ls &\n").out =
      ["Tried to create too many jobs\n"]) ∧
    ((7 : Int) < 1 → (addjob false fullJobs 7 BG "ls &\n").out = []) :=
  addjob_full_rejected false fullJobs 7 BG "ls &\n" wellFormed_fullJobs (by decide)

/-- Counterexample to C5 as stated: on the full list with jids 1..16, `addjob` with pid 0
returns 0 without printing the message. -/
theorem addjob_full_pid0_silent :
    WellFormed fullJobs ∧ (∀ j ∈ fullJobs, j.pid ≠ 0) ∧
    (liveJids fullJobs).Perm jidRange ∧
    (addjob false fullJobs 0 BG "ls &\n").ret = 0 ∧
    "Tried to create too many jobs\n" ∉ (addjob false fullJobs 0 BG "ls &\n").out := by
  decide

/-! ## The child-status handler -/

theorem getjobpid_some {jobs : List job_t} {pid : Int} {i : Nat}
    (h : getjobpid jobs pid = some i) :
    ¬ pid < 1 ∧ firstSlot (fun j => j.pid == pid) jobs = some i := by
  unfold getjobpid at h
  split_ifs at h with hp
  exact ⟨hp, h⟩

theorem getjobpid_pid {jobs : List job_t} {pid : Int} {i : Nat} {e : job_t}
    (h : getjobpid jobs pid = some i) (he : jobs[i]? = some e) : e.pid = pid := by
  obtain ⟨j, hj, hp, _⟩ := firstSlot_some (getjobpid_some h).2
  rw [he] at hj
  cases hj
  simpa using hp

/-- C8: when the reaped child `pid` is registered in slot `i` with record `e`, the handler
(i) for a child terminated by a signal prints "Job [jid] (pid) terminated by signal 2" and
clears the slot, (ii) for a child that exited clears the slot and prints nothing, (iii) for
a stopped child prints "Job [jid] (pid) stopped by signal 20" and sets the state of the slot
to ST, keeping pid, jid and command line; in all three cases every other slot is unchanged. -/
theorem sigchld_handler_registered (s : Shell) (pid : Int) (i : Nat) (e : job_t)
    (hget : getjobpid s.jobs pid = some i) (he : s.jobs[i]? = some e) :
    (∀ sig, sigchld_handler s [(pid, .signaled sig)] =
      some { jobs := s.jobs.set i clearjob, verbose := s.verbose,
             trace := s.trace ++ [.printf ("Job [" ++ toString e.jid ++ "] (" ++
               toString pid ++ ") terminated by signal 2\n")] }) ∧
    (∀ code, sigchld_handler s [(pid, .exited code)] =
      some { jobs := s.jobs.set i clearjob, verbose := s.verbose, trace := s.trace }) ∧
    (∀ sig, sigchld_handler s [(pid, .stopped sig)] =
      some { jobs := s.jobs.set i { pid := e.pid, jid := e.jid, state := ST, cmdline := e.cmdline },
             verbose := s.verbose,
             trace := s.trace ++ [.printf ("Job [" ++ toString e.jid ++ "] (" ++
               toString pid ++ ") stopped by signal 20\n")] }) ∧
    (∀ sta s1, sigchld_handler s [(pid, sta)] = some s1 →
      ∀ k, k ≠ i → s1.jobs[k]? = s.jobs[k]?) := by
  obtain ⟨hp, hfind⟩ := getjobpid_some hget
  have hpos : pid > 0 := by omega
  have hjid : pid2jid s.jobs pid = e.jid := by
    simp only [pid2jid, hp, if_false, hfind, List.getD_eq_getElem?_getD, he, Option.getD]
  have hdel : deletejob s.jobs pid = (1, s.jobs.set i clearjob) := by
    simp only [deletejob, hp, if_false, hfind]
  have h1 : ∀ sig, sigchld_handler s [(pid, .signaled sig)] =
      some { jobs := s.jobs.set i clearjob, verbose := s.verbose,
             trace := s.trace ++ [.printf ("Job [" ++ toString e.jid ++ "] (" ++
               toString pid ++ ") terminated by signal 2\n")] } := by
    intro sig
    simp [sigchld_handler, sigchld_body, hpos, WIFSIGNALED, emit, hjid, hdel]
  have h2 : ∀ code, sigchld_handler s [(pid, .exited code)] =
      some { jobs := s.jobs.set i clearjob, verbose := s.verbose, trace := s.trace } := by
    intro code
    simp [sigchld_handler, sigchld_body, hpos, WIFSIGNALED, WIFEXITED, hdel]
  have h3 : ∀ sig, sigchld_handler s [(pid, .stopped sig)] =
      some { jobs := s.jobs.set i { pid := e.pid, jid := e.jid, state := ST, cmdline := e.cmdline },
             verbose := s.verbose,
             trace := s.trace ++ [.printf ("Job [" ++ toString e.jid ++ "] (" ++
               toString pid ++ ") stopped by signal 20\n")] } := by
    intro sig
    simp [sigchld_handler, sigchld_body, hpos, WIFSIGNALED, WIFEXITED, WIFSTOPPED, emit, hjid,
      hget, setState, he]
  refine ⟨h1, h2, h3, ?_⟩
  intro sta s1 hs1 k hk
  cases sta with
  | exited code =>
    rw [h2 code] at hs1
    cases hs1
    simp [List.getElem?_set, Ne.symm hk]
  | signaled sig =>
    rw [h1 sig] at hs1
    cases hs1
    simp [List.getElem?_set, Ne.symm hk]
  | stopped sig =>
    rw [h3 sig] at hs1
    cases hs1
    simp [List.getElem?_set, Ne.symm hk]

/-- Witness for C8: the three reactions for the job with pid 102 and jid 3 in slot 2 of
`sampleJobs`. -/
theorem sigchld_handler_registered_witness :
    getjobpid sampleShell.jobs 102 = some 2 ∧
    sigchld_handler sampleShell [(102, .signaled 2)] =
      some { jobs := sampleJobs.set 2 clearjob, verbose := false,
             trace := [.printf "Job [3] (102) terminated by signal 2\n"] } ∧
    sigchld_handler sampleShell [(102, .exited 0)] =
      some { jobs := sampleJobs.set 2 clearjob, verbose := false, trace := [] } ∧
    sigchld_handler sampleShell [(102, .stopped 20)] =
      some { jobs := sampleJobs.set 2 { pid := 102, jid := 3, state := ST, cmdline := "cat\n" },
             verbose := false,
             trace := [.printf "Job [3] (102) stopped by signal 20\n"] } :=
  have h := sigchld_handler_registered sampleShell 102 2
    { pid := 102, jid := 3, state := ST, cmdline := "cat\n" } (by decide) (by rfl)
  ⟨by decide, h.1 2, h.2.1 0, h.2.2.1 20⟩

/-! ## The built-ins bg and fg -/

/-- C7, the code at `fg %abc` and `bg %abc`, on every job list: the argument is not a job
id or a process id (the loop over its characters finds `a`), yet `do_bgfg` looks the job up
first, prints "%0: No such job" and returns without the malformed-argument message. -/
theorem do_bgfg_lookup_before_validation (s : Shell) :
    bgfg_malformed "%abc" = true ∧
    do_bgfg s ["fg", "%abc"] = (emit s [.printf "%0: No such job\n"], .prompt) ∧
    do_bgfg s ["bg", "%abc"] = (emit s [.printf "%0: No such job\n"], .prompt) := by
  have hjid : toInt32 (strtol (String.mk ("%abc".toList.drop 1))) = 0 := by decide
  have hhead : "%abc".toList.head? = some '%' := by decide
  have hl : bgfg_lookup s.jobs "%abc" = .error 0 := by
    simp only [bgfg_lookup, hhead, if_true, hjid]
    simp [getjobjid]
  refine ⟨by decide, ?_, ?_⟩
  · simp only [do_bgfg, List.getElem?_cons_succ, List.getElem?_cons_zero, hl]
    rfl
  · simp only [do_bgfg, List.getElem?_cons_succ, List.getElem?_cons_zero, hl]
    rfl

/-! ## Launching a single command -/

theorem call_addjob_trace (s : Shell) (pid state : Int) (cmdline : String) :
    (call_addjob s pid state cmdline).trace =
      (s.trace ++ [Event.addjob pid state]) ++
        (addjob s.verbose s.jobs pid state cmdline).out.map Event.printf := rfl

/-- C6, the code on the parent path of `eval` for a single command: the calls are, in
order, `sigprocmask(SIG_BLOCK)`, `fork`, `setpgid`, `sigprocmask(SIG_UNBLOCK)` of the same
three signals, `Signal` twice, and only then `addjob`; whatever the mask was before, SIGCHLD
is not blocked when `addjob` is called. -/
theorem eval_launch_unblocks_before_addjob (env : Env) (s : Shell) (argv : List String)
    (bgrt : Nat) (cmdline : String) (m : List Int) (hpid : 0 < env.forkRet 0) :
    (∃ st,
      (s.trace ++
          [.sigprocmask SIG_BLOCK [SIGCHLD, SIGTSTP, SIGINT], .fork (env.forkRet 0),
           .setpgid (env.forkRet 0) (env.forkRet 0),
           .sigprocmask SIG_UNBLOCK [SIGCHLD, SIGTSTP, SIGINT],
           .Signal SIGTSTP, .Signal SIGINT] ++
          [Event.addjob (env.forkRet 0) st]) <+:
        (eval_launch env s argv bgrt cmdline).1.trace) ∧
    SIGCHLD ∉ maskAfter m
        [.sigprocmask SIG_BLOCK [SIGCHLD, SIGTSTP, SIGINT], .fork (env.forkRet 0),
         .setpgid (env.forkRet 0) (env.forkRet 0),
         .sigprocmask SIG_UNBLOCK [SIGCHLD, SIGTSTP, SIGINT],
         .Signal SIGTSTP, .Signal SIGINT] := by
  have h0 : ¬ env.forkRet 0 = 0 := by omega
  have hneg : ¬ env.forkRet 0 < 0 := by omega
  refine ⟨?_, by simp [maskAfter, maskStep, SIG_BLOCK, SIG_UNBLOCK, SIG_SETMASK,
    List.mem_filter]⟩
  by_cases hbg : (argv.getD (bgrt - 1) "" == "&") = true
  · refine ⟨BG, ?_⟩
    simp only [eval_launch, h0, hneg, if_false, hbg, Bool.not_true, Bool.false_eq_true]
    split
    · simp only [call_addjob_trace, emit, List.append_assoc]
      simp
    · simp only [call_addjob_trace, emit, List.append_assoc]
      simp
  · refine ⟨FG, ?_⟩
    simp only [eval_launch, h0, hneg, if_false, hbg, Bool.not_false, if_true]
    simp only [call_addjob_trace, emit, List.append_assoc]
    simp

/-- Witness for C6: the parent path for a foreground command whose `fork` returns 500. -/
theorem eval_launch_unblocks_before_addjob_witness :
    (∃ st,
      ([] ++
          [.sigprocmask SIG_BLOCK [SIGCHLD, SIGTSTP, SIGINT], .fork 500, .setpgid 500 500,
           .sigprocmask SIG_UNBLOCK [SIGCHLD, SIGTSTP, SIGINT],
           .Signal SIGTSTP, .Signal SIGINT] ++
          [Event.addjob 500 st]) <+:
        (eval_launch { forkRet := fun _ => 500, pipeOk := fun _ => true, opens := fun _ => true }
          freshShell ["sleep", "5"] 2 "sleep 5\n").1.trace) ∧
    SIGCHLD ∉ maskAfter []
        [.sigprocmask SIG_BLOCK [SIGCHLD, SIGTSTP, SIGINT], .fork 500, .setpgid 500 500,
         .sigprocmask SIG_UNBLOCK [SIGCHLD, SIGTSTP, SIGINT],
         .Signal SIGTSTP, .Signal SIGINT] :=
  eval_launch_unblocks_before_addjob
    { forkRet := fun _ => 500, pipeOk := fun _ => true, opens := fun _ => true }
    freshShell ["sleep", "5"] 2 "sleep 5\n" [] (by decide)

/-! ## Redirection -/

theorem ioredirection_of_open (opens : String → Bool) (argv : List String)
    (h : RedirsOpen opens argv) :
    ∃ rs, ioredirection opens (argv.map some ++ [none]) =
      .ok (argv.map (fun t => if isRedir t then none else some t) ++ [none], rs) := by
  induction argv with
  | nil => exact ⟨[], rfl⟩
  | cons t rest ih =>
    obtain ⟨hhead, hrest⟩ := h
    obtain ⟨rs, hrs⟩ := ih hrest
    by_cases h1 : t = "<"
    · obtain ⟨p, hp, hop⟩ := hhead (by simp [isRedir, h1])
      have hh : (rest.map some ++ [none]).head? = some (some p) := by
        cases rest with
        | nil => simp at hp
        | cons a l => simp at hp; simp [hp]
      refine ⟨{ path := p, fd := 0 } :: rs, ?_⟩
      simp [ioredirection, h1, hh, hop, hrs, isRedir]
    · by_cases h2 : t = ">"
      · obtain ⟨p, hp, hop⟩ := hhead (by simp [isRedir, h2])
        have hh : (rest.map some ++ [none]).head? = some (some p) := by
          cases rest with
          | nil => simp at hp
          | cons a l => simp at hp; simp [hp]
        refine ⟨{ path := p, fd := 1 } :: rs, ?_⟩
        simp [ioredirection, h2, hh, hop, hrs, isRedir]
      · refine ⟨rs, ?_⟩
        simp [ioredirection, h1, h2, hrs, isRedir]

theorem execvpArgs_cut (argv : List String) :
    execvpArgs (argv.map (fun t => if isRedir t then none else some t) ++ [none]) =
      argv.takeWhile (fun t => !isRedir t) := by
  induction argv with
  | nil => rfl
  | cons t rest ih =>
    unfold execvpArgs at ih ⊢
    by_cases h : isRedir t = true
    · simp [List.takeWhile, h]
    · simp [List.takeWhile, h, ih]

/-- C10 as amended: in the child of a single foreground command in which every `<` or `>`
token is followed by a token that opens, the argument vector `eval` hands to `execvp` is
the sequence of tokens before the first `<` or `>`, in their order. -/
theorem eval_child_execvp_args (env : Env) (s : Shell) (argv : List String)
    (cmdline : String) (hchild : env.forkRet 0 = 0)
    (hfg : (argv.getD (argv.length - 1) "" == "&") = false)
    (hopen : RedirsOpen env.opens argv) :
    (eval_launch env s argv argv.length cmdline).2 =
      .child (.ok (argv.takeWhile (fun t => !isRedir t))) := by
  obtain ⟨rs, hrs⟩ := ioredirection_of_open env.opens argv hopen
  simp only [eval_launch, hchild, if_true, eval_child, hrs, hfg, Bool.false_eq_true, if_false,
    execvpArgs_cut]

/-- Witness for C10 as amended: `sort -r < in.txt > out` hands `sort -r` to `execvp`. -/
theorem eval_child_execvp_args_witness :
    (eval_launch childEnv freshShell ["sort", "-r", "<", "in.txt", ">", "out"]
        ["sort", "-r", "<", "in.txt", ">", "out"].length "sort -r < in.txt > out\n").2 =
      .child (.ok (["sort", "-r", "<", "in.txt", ">", "out"].takeWhile
        (fun t => !isRedir t))) :=
  eval_child_execvp_args childEnv freshShell ["sort", "-r", "<", "in.txt", ">", "out"]
    "sort -r < in.txt > out\n" rfl (by decide)
    ⟨by decide, by decide, fun _ => ⟨"in.txt", rfl, rfl⟩, by decide,
      fun _ => ⟨"out", rfl, rfl⟩, by decide, trivial⟩

/-- Counterexample to C10 as stated: for `sort < in.txt -r`, where the path opens, the
claimed vector is `sort -r` but `execvp` receives `sort` alone. -/
theorem eval_child_drops_later_tokens :
    parseline "sort < in.txt -r\n" = ["sort", "<", "in.txt", "-r"] ∧
    RedirsOpen childEnv.opens ["sort", "<", "in.txt", "-r"] ∧
    (eval_launch childEnv freshShell ["sort", "<", "in.txt", "-r"] 4 "sort < in.txt -r\n").2 =
      .child (.ok ["sort"]) ∧
    removeRedirs ["sort", "<", "in.txt", "-r"] = ["sort", "-r"] ∧
    ["sort"] ≠ removeRedirs ["sort", "<", "in.txt", "-r"] :=
  ⟨by decide, ⟨by decide, fun _ => ⟨"in.txt", rfl, rfl⟩, by decide, by decide, trivial⟩,
    by rfl, by decide, by decide⟩

/-! ## Pipelines -/

/-- C11, the code on `bg <target>` when the target resolves to the job `e` in slot `i` and
is well formed: (i) when the job is stopped, the state of slot `i` becomes BG and `kill` is
called with the pid itself as target, not the negated pid, then the line `[jid] (pid)
cmdline` is printed; (ii) otherwise only that line is printed and the job list is the same;
(iii) for a pid >= 1 no `kill` with the negated pid is among the calls; (iv) no other slot
changes. -/
theorem do_bgfg_bg_resolved (s : Shell) (arg : String) (t : Target) (i : Nat) (e : job_t)
    (hl : bgfg_lookup s.jobs arg = .ok t) (hc : t.curr = some i)
    (hm : bgfg_malformed arg = false) (he : s.jobs[i]? = some e) :
    (e.state = ST →
      do_bgfg s ["bg", arg] =
        ({ jobs := s.jobs.set i { pid := e.pid, jid := e.jid, state := BG, cmdline := e.cmdline },
           verbose := s.verbose,
           trace := s.trace ++ [.kill e.pid SIGCONT,
             .printf ("[" ++ toString e.jid ++ "] (" ++ toString e.pid ++ ") " ++ e.cmdline)] },
         .prompt)) ∧
    (e.state ≠ ST →
      do_bgfg s ["bg", arg] =
        ({ jobs := s.jobs, verbose := s.verbose,
           trace := s.trace ++
             [.printf ("[" ++ toString e.jid ++ "] (" ++ toString e.pid ++ ") " ++ e.cmdline)] },
         .prompt)) ∧
    (1 ≤ e.pid → Event.kill (-e.pid) SIGCONT ∉ (do_bgfg s ["bg", arg]).1.trace.drop
      s.trace.length) ∧
    (∀ k, k ≠ i → (do_bgfg s ["bg", arg]).1.jobs[k]? = s.jobs[k]?) := by
  have hcurr : s.jobs.getD i clearjob = e := by
    simp [List.getD_eq_getElem?_getD, he]
  have hbg : ("bg" == "bg") = true := by decide
  have h1 : e.state = ST →
      do_bgfg s ["bg", arg] =
        ({ jobs := s.jobs.set i { pid := e.pid, jid := e.jid, state := BG, cmdline := e.cmdline },
           verbose := s.verbose,
           trace := s.trace ++ [.kill e.pid SIGCONT,
             .printf ("[" ++ toString e.jid ++ "] (" ++ toString e.pid ++ ") " ++ e.cmdline)] },
         .prompt) := by
    intro hst
    simp only [do_bgfg, List.getElem?_cons_succ, List.getElem?_cons_zero, hl, hm, hc, hcurr,
      List.getD_cons_zero, hbg, if_true, hst, Bool.false_eq_true, if_false, emit, setState, he,
      List.append_assoc, List.singleton_append]
  have h2 : e.state ≠ ST →
      do_bgfg s ["bg", arg] =
        ({ jobs := s.jobs, verbose := s.verbose,
           trace := s.trace ++
             [.printf ("[" ++ toString e.jid ++ "] (" ++ toString e.pid ++ ") " ++ e.cmdline)] },
         .prompt) := by
    intro hst
    simp only [do_bgfg, List.getElem?_cons_succ, List.getElem?_cons_zero, hl, hm, hc, hcurr,
      List.getD_cons_zero, hbg, if_true, hst, Bool.false_eq_true, if_false, emit]
  refine ⟨h1, h2, ?_, ?_⟩
  · intro hpid
    by_cases hst : e.state = ST
    · rw [h1 hst]
      have hne : -e.pid ≠ e.pid := by omega
      simp [hne]
    · rw [h2 hst]
      simp
  · intro k hk
    by_cases hst : e.state = ST
    · rw [h1 hst]
      simp [List.getElem?_set, Ne.symm hk]
    · rw [h2 hst]

/-- Witness for C11: `bg %3` on `sampleJobs`, where job 3 (pid 102) is stopped, calls
`kill(102, SIGCONT)`, sets the job to BG and prints `[3] (102) cat`. -/
theorem do_bgfg_bg_resolved_witness :
    do_bgfg sampleShell ["bg", "%3"] =
      ({ jobs := sampleJobs.set 2 { pid := 102, jid := 3, state := BG, cmdline := "cat\n" },
         verbose := false,
         trace := [] ++ [.kill 102 SIGCONT, .printf "[3] (102) cat\n"] },
       .prompt) ∧
    Event.kill (-102) SIGCONT ∉ (do_bgfg sampleShell ["bg", "%3"]).1.trace.drop 0 :=
  have h := do_bgfg_bg_resolved sampleShell "%3"
    { curr := some 2, job := true, jid := 3, pid := 102 } 2
    { pid := 102, jid := 3, state := ST, cmdline := "cat\n" }
    (by rfl) rfl (by decide) (by rfl)
  ⟨h.1 rfl, h.2.2.1 (by decide)⟩

/-! ## The child-status handler on a pid without a job -/

/-- C13, the code on a reaped child that has no entry in the job list: when the child is
reported as stopped the handler prints the stop line and then writes the state through the
NULL `job_handle` (the result `none`); for a child that was terminated by a signal or that
exited the handler returns, with the job list unchanged. -/
theorem sigchld_handler_unregistered (s : Shell) (pid : Int) (hpid : 0 < pid)
    (hno : getjobpid s.jobs pid = none) :
    (∀ sig, sigchld_handler s [(pid, .stopped sig)] = none) ∧
    (∀ sig, sigchld_handler s [(pid, .signaled sig)] =
      some { jobs := s.jobs, verbose := s.verbose,
             trace := s.trace ++
               [.printf ("Job [" ++ toString (0 : Int) ++ "] (" ++ toString pid ++
                 ") terminated by signal 2\n")] }) ∧
    (∀ code, sigchld_handler s [(pid, .exited code)] = some s) := by
  have hp : ¬ pid < 1 := by omega
  have hfind : firstSlot (fun j => j.pid == pid) s.jobs = none := by
    simpa [getjobpid, hp] using hno
  have hjid : pid2jid s.jobs pid = 0 := by
    simp only [pid2jid, hp, if_false, hfind]
  have hdel : deletejob s.jobs pid = (0, s.jobs) := by
    simp only [deletejob, hp, if_false, hfind]
  refine ⟨?_, ?_, ?_⟩
  · intro sig
    simp [sigchld_handler, sigchld_body, hpid, WIFSIGNALED, WIFEXITED, WIFSTOPPED, emit, hno]
  · intro sig
    simp [sigchld_handler, sigchld_body, hpid, WIFSIGNALED, emit, hjid, hdel]
  · intro code
    simp [sigchld_handler, sigchld_body, hpid, WIFSIGNALED, WIFEXITED, hdel]

/-- Witness for C13: on the full job list the foreground line `cat` leaves the child 500
unregistered (`addjob` prints its message and changes nothing); when that child is then
reported as stopped, the handler writes through NULL. -/
theorem sigchld_handler_unregistered_witness :
    (addjob false fullJobs 500 FG "cat\n").ret = 0 ∧
    output (eval parentEnv [] fullShell "cat\n").1 = ["Tried to create too many jobs\n"] ∧
    (eval parentEnv [] fullShell "cat\n").1.jobs = fullJobs ∧
    getjobpid (eval parentEnv [] fullShell "cat\n").1.jobs 500 = none ∧
    sigchld_handler (eval parentEnv [] fullShell "cat\n").1 [(500, .stopped 20)] = none :=
  ⟨by decide, by decide, by decide, by decide,
    (sigchld_handler_unregistered (eval parentEnv [] fullShell "cat\n").1 500 (by decide)
      (by decide)).1 20⟩

/-! ## The tokens of a line -/

theorem strchr_length {d : Char} {l : List Char} :
    ∀ {a r : List Char}, strchr d l = some (a, r) → r.length < l.length := by
  induction l with
  | nil => intro a r h; simp [strchr] at h
  | cons c cs ih =>
    intro a r h
    by_cases hc : (c == d) = true
    · simp [strchr, hc] at h
      rw [← h.2]
      simp
    · simp only [strchr, hc, Bool.false_eq_true, if_false, Option.map_eq_some'] at h
      obtain ⟨⟨a', r'⟩, h1, h2⟩ := h
      simp only [Prod.mk.injEq] at h2
      have := ih h1
      rw [← h2.2]
      simp only [List.length_cons]
      omega

theorem strchr_append {d : Char} (w rest : List Char) (hw : ∀ c ∈ w, c ≠ d) :
    strchr d (w ++ d :: rest) = some (w, rest) := by
  induction w with
  | nil => simp [strchr]
  | cons c cs ih =>
    have hc : (c == d) = false := by simpa using hw c (by simp)
    have := ih (fun x hx => hw x (by simp [hx]))
    simp [strchr, hc, this]

theorem skipSpaces_length_le (l : List Char) : (skipSpaces l).length ≤ l.length := by
  unfold skipSpaces
  exact (List.dropWhile_sublist _).length_le

theorem skipSpaces_cons_space (l : List Char) : skipSpaces (' ' :: l) = skipSpaces l := by
  simp [skipSpaces]

theorem skipSpaces_of_head {c : Char} (l : List Char) (hc : c ≠ ' ') :
    skipSpaces (c :: l) = c :: l := by
  simp [skipSpaces, hc]

theorem parseArgs_quote (f : Nat) (rest : List Char) :
    parseArgs (f + 1) ('\'' :: rest) =
      match strchr '\'' rest with
      | none => []
      | some (arg, r) => String.mk arg :: parseArgs f (skipSpaces r) := by
  rw [parseArgs]

theorem parseArgs_word (f : Nat) (buf : List Char) (h : buf.head? ≠ some '\'') :
    parseArgs (f + 1) buf =
      match strchr ' ' buf with
      | none => []
      | some (arg, r) => String.mk arg :: parseArgs f (skipSpaces r) := by
  rw [parseArgs]
  intro rest hr
  subst hr
  exact h rfl

/-- More fuel than the length of the buffer does not change what `parseArgs` returns. -/
theorem parseArgs_fuel_succ (f : Nat) :
    ∀ buf : List Char, buf.length ≤ f → parseArgs f buf = parseArgs (f + 1) buf := by
  induction f with
  | zero =>
    intro buf h
    have : buf = [] := List.length_eq_zero.mp (Nat.le_zero.mp h)
    subst this
    rfl
  | succ f ih =>
    intro buf h
    by_cases hq : buf.head? = some '\''
    · cases buf with
      | nil => simp at hq
      | cons c rest =>
        have hc : c = '\'' := by simpa using hq
        subst hc
        rw [parseArgs_quote, parseArgs_quote]
        cases hs : strchr '\'' rest with
        | none => rfl
        | some p =>
          obtain ⟨arg, r⟩ := p
          have h1 := strchr_length hs
          have h2 := skipSpaces_length_le r
          simp only [List.length_cons] at h
          simp only
          rw [ih (skipSpaces r) (by omega)]
    · rw [parseArgs_word _ _ hq, parseArgs_word _ _ hq]
      cases hs : strchr ' ' buf with
      | none => rfl
      | some p =>
        obtain ⟨arg, r⟩ := p
        have h1 := strchr_length hs
        have h2 := skipSpaces_length_le r
        simp only
        rw [ih (skipSpaces r) (by omega)]

theorem parseArgs_fuel (buf : List Char) (f1 f2 : Nat) (h1 : buf.length ≤ f1) (h2 : f1 ≤ f2) :
    parseArgs f1 buf = parseArgs f2 buf := by
  induction f2 with
  | zero =>
    have : f1 = 0 := by omega
    rw [this]
  | succ n ih =>
    by_cases h : f1 = n + 1
    · rw [h]
    · rw [ih (by omega), parseArgs_fuel_succ n buf (by omega)]

theorem parseArgs_wordStep (f : Nat) (w rest : List Char) (hne : w ≠ [])
    (hsp : ∀ c ∈ w, c ≠ ' ') (hq : w.head? ≠ some '\'') :
    parseArgs (f + 1) (w ++ ' ' :: rest) = String.mk w :: parseArgs f (skipSpaces rest) := by
  have hhead : (w ++ ' ' :: rest).head? ≠ some '\'' := by
    cases w with
    | nil => exact absurd rfl hne
    | cons c cs => simpa using hq
  rw [parseArgs_word f _ hhead, strchr_append w rest hsp]

theorem parseArgs_quotedStep (f : Nat) (q rest : List Char) (hq : ∀ c ∈ q, c ≠ '\'') :
    parseArgs (f + 1) ('\'' :: (q ++ '\'' :: rest)) =
      String.mk q :: parseArgs f (skipSpaces rest) := by
  rw [parseArgs_quote, strchr_append q rest hq]

/-- The arguments of the text before an argument start come first in what the loop of
`parseline` returns, followed by the arguments of the rest of the buffer. -/
theorem parseArgs_argText {pre : List Char} {toks : List String} (h : ArgText pre toks) :
    ∀ (rest : List Char) (f : Nat), (pre ++ rest).length ≤ f →
      parseArgs f (skipSpaces (pre ++ rest)) = toks ++ parseArgs f (skipSpaces rest) := by
  induction h with
  | done => intro rest f _; rfl
  | space r toks _ ih =>
    intro rest f hf
    rw [List.cons_append, skipSpaces_cons_space]
    exact ih rest f (by simp only [List.cons_append, List.length_cons] at hf; omega)
  | word w r toks hne hsp hq _ ih =>
    intro rest f hf
    have hlen : (w ++ ' ' :: r ++ rest).length = w.length + 1 + (r ++ rest).length := by
      simp only [List.length_append, List.length_cons]
      omega
    obtain ⟨f', rfl⟩ : ∃ f', f = f' + 1 := ⟨f - 1, by omega⟩
    have hskip : skipSpaces (w ++ ' ' :: r ++ rest) = w ++ ' ' :: (r ++ rest) := by
      cases w with
      | nil => exact absurd rfl hne
      | cons c cs =>
        have hc : c ≠ ' ' := hsp c (by simp)
        simp only [List.cons_append, List.append_assoc]
        exact skipSpaces_of_head _ hc
    have h1 := skipSpaces_length_le rest
    have h2 : rest.length ≤ (r ++ rest).length := by simp
    rw [hskip, parseArgs_wordStep f' w (r ++ rest) hne hsp hq, ih rest f' (by omega),
      parseArgs_fuel_succ f' (skipSpaces rest) (by omega)]
    rfl
  | quoted q r toks hq _ ih =>
    intro rest f hf
    have hlen : ('\'' :: (q ++ '\'' :: r) ++ rest).length = q.length + 2 + (r ++ rest).length := by
      simp only [List.cons_append, List.length_cons, List.length_append]
      omega
    obtain ⟨f', rfl⟩ : ∃ f', f = f' + 1 := ⟨f - 1, by omega⟩
    have hskip : skipSpaces ('\'' :: (q ++ '\'' :: r) ++ rest) =
        '\'' :: (q ++ '\'' :: (r ++ rest)) := by
      simp only [List.cons_append, List.append_assoc]
      exact skipSpaces_of_head _ (by decide)
    have h1 := skipSpaces_length_le rest
    have h2 : rest.length ≤ (r ++ rest).length := by simp
    rw [hskip, parseArgs_quotedStep f' q (r ++ rest) hq, ih rest f' (by omega),
      parseArgs_fuel_succ f' (skipSpaces rest) (by omega)]
    rfl

theorem parseline_mk (txt : List Char) :
    parseline (String.mk (txt ++ ['\n'])) =
      parseArgs (txt ++ [' ']).length (skipSpaces (txt ++ [' '])) := by
  simp [parseline]

/-- C12 as amended: in a newline-terminated line, an occurrence of `&`, `|`, `<` or `>` that
stands at an argument start (the text before it consists of complete arguments, so it is
outside every quoted argument and follows a space, a closing quote or the start of the line)
and is followed by a space or by the newline is returned by `parseline` as a token of its
own, between the arguments of the text before it and those of the text after it. -/
theorem parseline_operator_token (pre after : List Char) (toks : List String) (op : Char)
    (hop : op = '&' ∨ op = '|' ∨ op = '<' ∨ op = '>') (hpre : ArgText pre toks)
    (hafter : after = ['\n'] ∨ ∃ post, after = ' ' :: (post ++ ['\n'])) :
    parseline (String.mk (pre ++ op :: after)) =
      toks ++ String.mk [op] :: parseline (String.mk after) := by
  have hsp : op ≠ ' ' := by rcases hop with h | h | h | h <;> rw [h] <;> decide
  have hq : op ≠ '\'' := by rcases hop with h | h | h | h <;> rw [h] <;> decide
  obtain ⟨r, hr⟩ : ∃ r, after = r ++ ['\n'] ∧ ∃ r', r ++ [' '] = ' ' :: r' := by
    rcases hafter with h | ⟨post, h⟩
    · exact ⟨[], by simp [h], [], rfl⟩
    · exact ⟨' ' :: post, by simp [h], post ++ [' '], rfl⟩
  obtain ⟨hafter', r', hr'⟩ := hr
  have hline : pre ++ op :: after = (pre ++ op :: r) ++ ['\n'] := by
    simp [hafter']
  rw [hline, parseline_mk, hafter', parseline_mk, hr']
  have hbuf : pre ++ op :: r ++ [' '] = pre ++ ([op] ++ ' ' :: r') := by
    simp only [List.append_assoc, List.cons_append, List.nil_append, hr']
  rw [hbuf, parseArgs_argText hpre _ _ (le_refl _)]
  have hlen : (pre ++ ([op] ++ ' ' :: r')).length = (pre.length + r'.length + 1) + 1 := by
    simp only [List.length_append, List.length_cons, List.length_nil]
    omega
  have h1 := skipSpaces_length_le r'
  rw [hlen, show skipSpaces ([op] ++ ' ' :: r') = [op] ++ ' ' :: r' from
      skipSpaces_of_head _ hsp,
    parseArgs_wordStep _ [op] r' (by simp) (by simpa using hsp) (by simpa using hq),
    skipSpaces_cons_space]
  congr 2
  simp only [List.length_cons]
  exact (parseArgs_fuel (skipSpaces r') (r'.length + 1) (pre.length + r'.length + 1)
    (by omega) (by omega)).symm

/-- Witness for C12 as amended: in `echo 'a b' | wc &` the `|` follows the complete
arguments `echo` and `a b` and a space, and is followed by a space; it is a token of its
own. -/
theorem parseline_operator_token_witness :
    ArgText "echo 'a b' ".toList ["echo", "a b"] ∧
    parseline (String.mk ("echo 'a b' ".toList ++ '|' :: " wc &\n".toList)) =
      ["echo", "a b"] ++ String.mk ['|'] :: parseline (String.mk " wc &\n".toList) ∧
    parseline "echo 'a b' | wc &\n" = ["echo", "a b", "|", "wc", "&"] :=
  have hpre : ArgText "echo 'a b' ".toList ["echo", "a b"] :=
    ArgText.word "echo".toList "'a b' ".toList ["a b"] (by decide) (by decide) (by decide)
      (ArgText.quoted "a b".toList [' '] [] (by decide) (ArgText.space [] [] ArgText.done))
  ⟨hpre,
    parseline_operator_token "echo 'a b' ".toList " wc &\n".toList ["echo", "a b"] '|'
      (Or.inr (Or.inl rfl)) hpre (Or.inr ⟨"wc &".toList, rfl⟩),
    by decide⟩

/-- Counterexample to C12 as stated: in `ls|wc` the `|` is outside quotes but `parseline`
returns the single token `ls|wc`, so `eval` finds no `|` token; in `sleep 5&` the `&` stays
in the token `5&`. -/
theorem parseline_keeps_operator_in_word :
    parseline "ls|wc\n" = ["ls|wc"] ∧
    "|" ∉ parseline "ls|wc\n" ∧
    (parseline "ls|wc\n").any (fun t => t == "|") = false ∧
    parseline "sleep 5&\n" = ["sleep", "5&"] ∧
    "&" ∉ parseline "sleep 5&\n" := by
  decide

end Tsh
